import Mathlib

/-!
Verification of the arpingall program (src/arpingall.go) against its
natural-language specification.

The Go source is shallowly embedded: each Go function becomes a Lean
definition over `String` / `List Nat` (bytes are `Nat` values below 256),
fallible operations return `Except` or `Option`, and the stateful loops of
the source are written as structural recursions / folds that mirror the
loop bodies statement by statement.
-/

namespace Arpingall

/-- Value of one hexadecimal digit character, as accepted by Go's
`encoding/hex` package: `0-9`, `a-f`, `A-F`. -/
def hexDigitVal (c : Char) : Option Nat :=
  if '0' ≤ c ∧ c ≤ '9' then some (c.toNat - '0'.toNat)
  else if 'a' ≤ c ∧ c ≤ 'f' then some (c.toNat - 'a'.toNat + 10)
  else if 'A' ≤ c ∧ c ≤ 'F' then some (c.toNat - 'A'.toNat + 10)
  else none

/-- Embedding of `hex.DecodeString` from Go's `encoding/hex`, on a character list:
decodes consecutive pairs of hex digits into bytes; an odd-length input or
an invalid character is an error (`none`).  (Go returns distinct error
values for the two cases, but `parseIP` only propagates the error, so a
single failure case is faithful.) -/
def hexDecodeList : List Char → Option (List Nat)
  | [] => some []
  | [_] => none
  | c1 :: c2 :: rest =>
    match hexDigitVal c1, hexDigitVal c2, hexDecodeList rest with
    | some h, some l, some bs => some ((h * 16 + l) :: bs)
    | _, _, _ => none

/-- Embedding of `hex.DecodeString` on a `String`. -/
def hexDecode (s : String) : Option (List Nat) :=
  hexDecodeList s.data

/-- The error outcomes of `GetRoutes` / `parseIP` in the source:
a line with fewer than 3 whitespace-separated fields, a hex-decoding
failure, or the explicit `only IPv4 is supported` error. -/
inductive RouteError where
  | wrongFieldCount (got : Nat) : RouteError
  | hexError : RouteError
  | onlyIPv4 : RouteError
deriving DecidableEq, Repr

/-- Embedding of `parseIP` (src/arpingall.go:28-39): hex-decode the field; exactly 4
decoded bytes are required (otherwise the `only IPv4 is supported` error);
the 4 bytes are then reversed
(`bytes[0],bytes[1],bytes[2],bytes[3] = bytes[3],bytes[2],bytes[1],bytes[0]`). -/
def parseIP (s : String) : Except RouteError (List Nat) :=
  match hexDecode s with
  | none => .error .hexError
  | some [b0, b1, b2, b3] => .ok [b3, b2, b1, b0]
  | some _ => .error .onlyIPv4

/-- Whitespace as recognised by Go's `strings.Fields` (`unicode.IsSpace`),
restricted to the ASCII range that arises in routing-table text. -/
def isSpaceChar (c : Char) : Bool :=
  c = ' ' ∨ c = '\t' ∨ c = '\n' ∨ c = '\r' ∨ c = '\x0b' ∨ c = '\x0c'

/-- Helper for `fields`: split a character list at whitespace, carrying the
(reversed) characters of the current field. -/
def fieldsAux : List Char → List Char → List String
  | [], [] => []
  | [], acc => [String.mk acc.reverse]
  | c :: rest, acc =>
    if isSpaceChar c then
      match acc with
      | [] => fieldsAux rest []
      | _ => String.mk acc.reverse :: fieldsAux rest []
    else fieldsAux rest (c :: acc)

/-- Embedding of `strings.Fields`: the whitespace-separated fields of a line. -/
def fields (s : String) : List String :=
  fieldsAux s.data []

/-- Helper for `completeLines`: the source reads lines with
`scanner.ReadString('\n')` and breaks out of the loop when that call
reports `io.EOF` — which it does exactly when the remaining input contains
no `'\n'`.  Hence the newline-terminated prefixes are the lines processed,
and a trailing unterminated segment is dropped.  The accumulator carries
the (reversed) characters of the current line. -/
def completeLinesAux : List Char → List Char → List String
  | [], _ => []
  | c :: rest, acc =>
    if c = '\n' then String.mk acc.reverse :: completeLinesAux rest []
    else completeLinesAux rest (c :: acc)

/-- The newline-terminated lines of the input, without their terminators
(`strings.Fields` treats the terminator as whitespace, so dropping it is
equivalent). -/
def completeLines (s : String) : List String :=
  completeLinesAux s.data []

/-- Embedding of `Route` (src/arpingall.go:15-19); IPs are byte lists. -/
structure Route where
  Interface : String
  Destination : List Nat
  Gateway : List Nat
deriving DecidableEq, Repr

/-- The loop body of `GetRoutes` (src/arpingall.go:52-78), one iteration
per line already read: check the field count (before anything else, so the
header line is also checked), then skip the first line as the header, then
parse fields 1 and 2 as destination and gateway.  `lineNum` is the number
of lines processed before the current one. -/
def goRoutes : List String → Nat → Except RouteError (List Route)
  | [], _ => .ok []
  | line :: rest, lineNum =>
    let fs := fields line
    if fs.length < 3 then .error (.wrongFieldCount fs.length)
    else if lineNum + 1 = 1 then goRoutes rest (lineNum + 1)
    else
      match parseIP (fs.get! 1) with
      | .error e => .error e
      | .ok dest =>
        match parseIP (fs.get! 2) with
        | .error e => .error e
        | .ok gw =>
          (goRoutes rest (lineNum + 1)).map
            (fun rs => { Interface := fs.get! 0, Destination := dest, Gateway := gw } :: rs)

/-- Embedding of `GetRoutes` (src/arpingall.go:41-80) as a function of the routing-table
text it reads. -/
def GetRoutes (content : String) : Except RouteError (List Route) :=
  goRoutes (completeLines content) 0

/-- The default-gateway index, modelling the Go `map[string]net.IP`: an
association list with unique keys.  `updateMap` is map assignment
`m[k] = v` — it overwrites the entry for `k` if present, else appends. -/
def updateMap (m : List (String × List Nat)) (k : String) (v : List Nat) :
    List (String × List Nat) :=
  match m with
  | [] => [(k, v)]
  | (k', v') :: rest => if k' = k then (k, v) :: rest else (k', v') :: updateMap rest k v

/-- Map lookup `m[k]`, `none` when the key is absent (the Go lookup yields
`nil`, which is what the dispatcher's `gw == nil` test detects). -/
def lookupGw (m : List (String × List Nat)) (k : String) : Option (List Nat) :=
  match m with
  | [] => none
  | (k', v) :: rest => if k' = k then some v else lookupGw rest k

/-- The loop of `getDefaultRoutes` (src/arpingall.go:89-96), as a function
of the route list `GetRoutes` produced: keep routes whose destination
`.Equal`s `net.IP{0,0,0,0}` and assign `defaultRoutes[iface] = gateway`
in file order.  (All destinations produced by `parseIP` are 4-byte, and
`net.IP.Equal` on two 4-byte IPs is bytewise equality.) -/
def getDefaultRoutes (routes : List Route) : List (String × List Nat) :=
  routes.foldl
    (fun m r => if r.Destination = [0, 0, 0, 0] then updateMap m r.Interface r.Gateway else m)
    []

/-- Embedding of `iface` (src/arpingall.go:21-25). -/
structure iface where
  name : String
  mac : String
  addr : String
deriving DecidableEq, Repr

/-- A system network interface as `localAddresses` observes it through the
`net` package: its name, the `String()` form of its hardware address
(`""` when it has none), and the result of `Addrs()` — `none` models the
call returning an error. -/
structure netInterface where
  name : String
  hardwareAddr : String
  addrs : Option (List String)
deriving DecidableEq, Repr

/-- Embedding of `localAddresses` (src/arpingall.go:101-129) as a function of the
enumerated system interfaces: skip interfaces whose hardware-address string
is empty; skip (after logging) interfaces whose `Addrs()` call fails; for
each remaining interface append one `iface` record per address, in
enumeration order. -/
def localAddresses (ifaces : List netInterface) : List iface :=
  ifaces.flatMap (fun i =>
    if i.hardwareAddr = "" then []
    else
      match i.addrs with
      | none => []
      | some as => as.map (fun a => { name := i.name, mac := i.hardwareAddr, addr := a }))

/-! Dispatcher: `main` (src/arpingall.go:131-178).

`main` parses each local address with `net.ParseCIDR`, skips it if the
resulting IP is not IPv4 (`ip.To4() == nil`, which also covers a failed
parse, whose error is discarded and whose IP is `nil`), looks the
interface up in the default-route map, skips when the lookup yields `nil`,
and otherwise runs `arping -U -c 1 -I <iface> -s <ip> <gw>`.  The relevant
fragment of `net.ParseCIDR` composed with `To4` is embedded below for
dotted-quad IPv4 CIDR strings; every other string yields a `nil`/non-IPv4
result and hence a skip. -/

/-- Decimal parse of one dotted-quad octet as Go's `net` parser accepts it
inside `ParseCIDR`: nonempty, digits only, no leading zero (except "0"
itself), value at most 255. -/
def parseOctet (s : List Char) : Option Nat :=
  if s = [] then none
  else if ¬ s.all (fun c => '0' ≤ c ∧ c ≤ '9') then none
  else if s.head? = some '0' ∧ s.length > 1 then none
  else
    let v := s.foldl (fun a c => a * 10 + (c.toNat - '0'.toNat)) 0
    if v ≤ 255 then some v else none

/-- Split a character list at the first occurrence of `sep`. -/
def splitAtFirst (sep : Char) : List Char → Option (List Char × List Char)
  | [] => none
  | c :: rest =>
    if c = sep then some ([], rest)
    else (splitAtFirst sep rest).map (fun p => (c :: p.1, p.2))

/-- Helper for `splitOn`, carrying the (reversed) current segment. -/
def splitOnAux (sep : Char) : List Char → List Char → List (List Char)
  | [], acc => [acc.reverse]
  | c :: rest, acc =>
    if c = sep then acc.reverse :: splitOnAux sep rest []
    else splitOnAux sep rest (c :: acc)

/-- Split a character list at every occurrence of `sep`. -/
def splitOn (sep : Char) (s : List Char) : List (List Char) :=
  splitOnAux sep s []

/-- Embedding of `net.ParseCIDR` followed by the dispatcher's `To4` test, for IPv4:
`"a.b.c.d/n"` with valid octets and a valid prefix length `n ≤ 32` yields
the 4 address bytes; anything else (including IPv6 text, whose `To4` is
`nil`) yields `none`, which `main` skips. -/
def parseCIDRv4 (s : String) : Option (List Nat) :=
  match splitAtFirst '/' s.data with
  | none => none
  | some (addr, mask) =>
    match (splitOn '.' addr).mapM parseOctet with
    | some [a, b, c, d] =>
      match parseOctet mask with
      | some n => if n ≤ 32 then some [a, b, c, d] else none
      | none => none
    | _ => none

/-- Embedding of `net.IP.String` for a 4-byte IP: the dotted-quad decimal form.  (The
program only renders IPs obtained from `parseIP` or from the IPv4 branch
of `ParseCIDR`, which are 4-byte.) -/
def ipToString (ip : List Nat) : String :=
  match ip with
  | [a, b, c, d] =>
    toString a ++ "." ++ toString b ++ "." ++ toString c ++ "." ++ toString d
  | _ => "?"

/-- One external-tool invocation: the command name and its argument list
(src/arpingall.go:170-171). -/
structure Probe where
  tool : String
  args : List String
deriving DecidableEq, Repr

/-- One iteration of the dispatch loop in `main`
(src/arpingall.go:140-177) for a single local address: `some p` when the
external tool is invoked with probe `p`, `none` when the address is
skipped (non-IPv4 address, or no default gateway for its interface). -/
def probeFor (defaultRoutes : List (String × List Nat)) (i : iface) : Option Probe :=
  match parseCIDRv4 i.addr with
  | none => none
  | some ip =>
    match lookupGw defaultRoutes i.name with
    | none => none
    | some gw =>
      some { tool := "arping"
             args := ["-U", "-c", "1", "-I", i.name, "-s", ipToString ip, ipToString gw] }

/-- The sequence of external-tool invocations the dispatch loop performs,
in address order (assuming every invocation succeeds, so the loop runs to
completion). -/
def dispatchProbes (defaultRoutes : List (String × List Nat)) (ifaces : List iface) :
    List Probe :=
  ifaces.filterMap (probeFor defaultRoutes)

/-! External process results.

What `exec.Command(...).Output()` gives the program.  Per Go's `os/exec`,
`Output` runs the command and returns its *standard output*; standard
error is not part of the returned bytes (when `Stderr` is nil, `Output`
stashes it in the error value for failed runs, but the source only prints
`output`). -/

/-- Outcome of running the external tool: what it wrote to each stream and
whether it exited successfully. -/
structure ExecResult where
  stdout : String
  stderr : String
  exitOk : Bool
deriving DecidableEq, Repr

/-- Embedding of `exec.Command(...).Output()` (src/arpingall.go:171): the standard
output on success, an error (on which `main` aborts) otherwise. -/
def cmdOutput (r : ExecResult) : Option String :=
  if r.exitOk then some r.stdout else none

/-- What `main` prints for one successful tool invocation
(src/arpingall.go:176): `fmt.Println(string(output))` — the captured
standard output (with the trailing newline `Println` adds). -/
def echoedOutput (r : ExecResult) : Option String :=
  (cmdOutput r).map (fun out => out ++ "\n")

/-! Round-trip re-encoding.  The source itself has no encoder; the spec's
round-trip property needs one, so the encoding direction is modelled from
the spec below. -/

/-- Modelled from the spec: the hex-digit character for a value below 16,
in lowercase as Go's `hex.EncodeToString` (the matching encoder of the
`encoding/hex` package used by the source) produces; the source has no
encoder of its own. -/
def hexDigitChar (n : Nat) : Char :=
  if n < 10 then Char.ofNat ('0'.toNat + n) else Char.ofNat ('a'.toNat + (n - 10))

/-- Modelled from the spec: hex-encode a byte list, two digits per byte
(`hex.EncodeToString`). -/
def hexEncodeBytes : List Nat → List Char
  | [] => []
  | b :: rest => hexDigitChar (b / 16) :: hexDigitChar (b % 16) :: hexEncodeBytes rest

/-- Modelled from the spec: re-encode a decoded IP — "byte-reverse,
hex-encode" — the inverse direction of `parseIP`, which the source does
not contain. -/
def reEncodeIP (ip : List Nat) : String :=
  String.mk (hexEncodeBytes ip.reverse)

/-- Lowercase image of an uppercase hex digit; other characters are kept. -/
def toLowerHex (c : Char) : Char :=
  if 'A' ≤ c ∧ c ≤ 'F' then Char.ofNat (c.toNat + 32) else c

/-- Character-wise lowercasing of the hex letters of a string. -/
def lowerHexStr (s : String) : String :=
  String.mk (s.data.map toLowerHex)

/-- Decidable equality for `Except`, so that statements about `parseIP`
and `GetRoutes` outcomes can be checked by evaluation. -/
instance {ε α : Type} [DecidableEq ε] [DecidableEq α] : DecidableEq (Except ε α) := fun a b =>
  match a, b with
  | .error e, .error f =>
    if h : e = f then .isTrue (by rw [h]) else
      .isFalse (by intro hc; injection hc; exact h ‹e = f›)
  | .ok x, .ok y =>
    if h : x = y then .isTrue (by rw [h]) else
      .isFalse (by intro hc; injection hc; exact h ‹x = y›)
  | .error _, .ok _ => .isFalse (by intro hc; injection hc)
  | .ok _, .error _ => .isFalse (by intro hc; injection hc)

/-! Theorems.  First shared helper lemmas about the embedded definitions,
then one theorem per specification claim. -/

/-- An element selected by `getLast?` is a member of the list. -/
theorem mem_of_getLast?_eq {α : Type} {l : List α} {a : α} (h : l.getLast? = some a) :
    a ∈ l := by
  induction l with
  | nil => simp [List.getLast?] at h
  | cons x xs ih =>
    cases xs with
    | nil =>
      simp [List.getLast?] at h
      simp [h]
    | cons y ys =>
      rw [List.getLast?_cons_cons] at h
      exact List.mem_cons_of_mem x (ih h)

/-- Lookup after a map assignment: the assigned key reads back the new
value, every other key is untouched. -/
theorem lookupGw_updateMap (m : List (String × List Nat)) (k k' : String) (v : List Nat) :
    lookupGw (updateMap m k v) k' = if k = k' then some v else lookupGw m k' := by
  induction m with
  | nil => simp [updateMap, lookupGw]
  | cons p rest ih =>
    obtain ⟨pk, pv⟩ := p
    by_cases hpk : pk = k
    · subst hpk
      simp [updateMap, lookupGw]
      by_cases hk : pk = k'
      · subst hk; simp [lookupGw]
      · simp [lookupGw, hk]
    · simp only [updateMap, if_neg hpk, lookupGw]
      by_cases hk : pk = k'
      · subst hk
        simp only [if_pos rfl]
        have : ¬ (k = pk) := fun h => hpk h.symm
        rw [if_neg this]
        simp [lookupGw]
      · rw [if_neg hk, ih]
        by_cases hkk : k = k' <;> simp [hkk, lookupGw, hk]

/-- The default-gateway index built by `getDefaultRoutes` realises
last-write-wins over the default routes: looking up a name yields the
gateway of the last route in the sequence whose destination is 0.0.0.0
and whose interface is that name (and nothing for names with no default
route). -/
theorem lookupGw_getDefaultRoutes (routes : List Route) (name : String) :
    lookupGw (getDefaultRoutes routes) name =
      ((routes.filter (fun r =>
          decide (r.Destination = [0, 0, 0, 0] ∧ r.Interface = name))).getLast?).map
        Route.Gateway := by
  induction routes using List.reverseRecOn with
  | nil => simp [getDefaultRoutes, lookupGw]
  | append_singleton l r ih =>
    rw [getDefaultRoutes, List.foldl_append]
    rw [List.foldl_cons, List.foldl_nil]
    rw [List.filter_append]
    by_cases hd : r.Destination = [0, 0, 0, 0]
    · by_cases hn : r.Interface = name
      · have hfil : List.filter (fun r =>
            decide (r.Destination = [0, 0, 0, 0] ∧ r.Interface = name)) [r] = [r] := by
          simp [List.filter, hd, hn]
        rw [hfil, List.getLast?_concat]
        rw [if_pos hd, lookupGw_updateMap]
        rw [if_pos hn]
        rfl
      · have hfil : List.filter (fun r =>
            decide (r.Destination = [0, 0, 0, 0] ∧ r.Interface = name)) [r] = [] := by
          simp [List.filter, hd, hn]
        rw [hfil, List.append_nil]
        rw [if_pos hd, lookupGw_updateMap]
        rw [if_neg hn]
        exact ih
    · have hfil : List.filter (fun r =>
          decide (r.Destination = [0, 0, 0, 0] ∧ r.Interface = name)) [r] = [] := by
        simp [List.filter, hd]
      rw [hfil, List.append_nil, if_neg hd]
      exact ih

/-- C1: for every sequence of route entries the derived default-gateway
index contains exactly the entries whose destination is 0.0.0.0, mapped
interface name → gateway, with the latest entry winning when several
default routes share an interface name; and on the example rows
(eth0, 00000000, 0101A8C0), (eth0, 000011AC, 0101A8C0) the index is
exactly {eth0 → 192.168.1.1}, nothing being derived from the second
(non-default) row. -/
theorem default_gateway_index_correct :
    (∀ (routes : List Route) (name : String),
      lookupGw (getDefaultRoutes routes) name =
        ((routes.filter (fun r =>
            decide (r.Destination = [0, 0, 0, 0] ∧ r.Interface = name))).getLast?).map
          Route.Gateway)
    ∧ (GetRoutes "Iface Destination Gateway\neth0 00000000 0101A8C0\neth0 000011AC 0101A8C0\n").map
        getDefaultRoutes = .ok [("eth0", [192, 168, 1, 1])] :=
  ⟨lookupGw_getDefaultRoutes, rfl⟩

/-- A hex digit value is below 16, and the modelled lowercase encoder maps
it back to the lowercase form of the digit character it came from. -/
theorem hexDigitVal_spec {c : Char} {n : Nat} (h : hexDigitVal c = some n) :
    n < 16 ∧ hexDigitChar n = toLowerHex c := by
  unfold hexDigitVal at h
  split_ifs at h with h1 h2 h3 <;> injection h with hn <;> subst hn
  · have hc1 : 48 ≤ c.toNat := h1.1
    have hc2 : c.toNat ≤ 57 := h1.2
    have h0 : ('0' : Char).toNat = 48 := rfl
    refine ⟨by omega, ?_⟩
    have hno : ¬ ('A' ≤ c ∧ c ≤ 'F') := by
      intro hAF
      have : 65 ≤ c.toNat := hAF.1
      omega
    have hlt : c.toNat - ('0' : Char).toNat < 10 := by omega
    simp only [hexDigitChar, if_pos hlt, toLowerHex, if_neg hno]
    have he : ('0' : Char).toNat + (c.toNat - ('0' : Char).toNat) = c.toNat := by omega
    rw [he, Char.ofNat_toNat]
  · have hc1 : 97 ≤ c.toNat := h2.1
    have hc2 : c.toNat ≤ 102 := h2.2
    have ha : ('a' : Char).toNat = 97 := rfl
    refine ⟨by omega, ?_⟩
    have hno : ¬ ('A' ≤ c ∧ c ≤ 'F') := by
      intro hAF
      have : c.toNat ≤ 70 := hAF.2
      omega
    have hge : ¬ (c.toNat - ('a' : Char).toNat + 10 < 10) := by omega
    simp only [hexDigitChar, if_neg hge, toLowerHex, if_neg hno]
    have he : ('a' : Char).toNat + (c.toNat - ('a' : Char).toNat + 10 - 10) = c.toNat := by
      omega
    rw [he, Char.ofNat_toNat]
  · have hc1 : 65 ≤ c.toNat := h3.1
    have hc2 : c.toNat ≤ 70 := h3.2
    have hA : ('A' : Char).toNat = 65 := rfl
    have ha : ('a' : Char).toNat = 97 := rfl
    refine ⟨by omega, ?_⟩
    have hge : ¬ (c.toNat - ('A' : Char).toNat + 10 < 10) := by omega
    simp only [hexDigitChar, if_neg hge, toLowerHex, if_pos h3]
    congr 1
    omega

/-- Re-encoding the bytes a hex decode produced yields the lowercase form
of the original digit characters. -/
theorem hexEncodeBytes_hexDecodeList :
    ∀ {cs : List Char} {bs : List Nat},
      hexDecodeList cs = some bs → hexEncodeBytes bs = cs.map toLowerHex
  | [], bs, h => by
    rw [hexDecodeList] at h
    injection h with h
    subst h
    rfl
  | [c], bs, h => by
    rw [hexDecodeList] at h
    exact absurd h (by simp)
  | c1 :: c2 :: rest, bs, h => by
    rw [hexDecodeList] at h
    cases h1 : hexDigitVal c1 with
    | none => rw [h1] at h; exact absurd h (by simp)
    | some hv =>
      cases h2 : hexDigitVal c2 with
      | none => rw [h1, h2] at h; exact absurd h (by simp)
      | some lv =>
        cases h3 : hexDecodeList rest with
        | none => rw [h1, h2, h3] at h; exact absurd h (by simp)
        | some bs2 =>
          rw [h1, h2, h3] at h
          injection h with h
          subst h
          obtain ⟨hvlt, hvchar⟩ := hexDigitVal_spec h1
          obtain ⟨lvlt, lvchar⟩ := hexDigitVal_spec h2
          have hdiv : (hv * 16 + lv) / 16 = hv := by omega
          have hmod : (hv * 16 + lv) % 16 = lv := by omega
          rw [hexEncodeBytes, hdiv, hmod, hvchar, lvchar,
            hexEncodeBytes_hexDecodeList h3, List.map_cons, List.map_cons]

/-- C3 (amended): decoding a valid 8-hex-character field and re-encoding
the result (byte-reverse, lowercase hex-encode, as `hex.EncodeToString`
would) reproduces the lowercase form of the original field; it reproduces
the field exactly iff the field was already lowercase. -/
theorem parseIP_reEncode_roundtrip (s : String) (ip : List Nat)
    (h : parseIP s = .ok ip) : reEncodeIP ip = lowerHexStr s := by
  unfold parseIP at h
  cases hd : hexDecode s with
  | none => rw [hd] at h; exact absurd h (by simp)
  | some bs =>
    rw [hd] at h
    rcases bs with _ | ⟨b0, _ | ⟨b1, _ | ⟨b2, _ | ⟨b3, _ | ⟨b4, rest⟩⟩⟩⟩⟩ <;> simp at h
    subst h
    unfold reEncodeIP lowerHexStr
    congr 1
    have hrev : ([b3, b2, b1, b0] : List Nat).reverse = [b0, b1, b2, b3] := by simp
    rw [hrev]
    unfold hexDecode at hd
    exact hexEncodeBytes_hexDecodeList hd

/-- C3 counterexample: the spec's own example field `000011AC` is valid,
decodes to 172.17.0.0, but re-encodes to `000011ac`, which differs from
the original — the round-trip is not an exact identity on uppercase
fields. -/
theorem parseIP_reEncode_not_exact :
    parseIP "000011AC" = .ok [172, 17, 0, 0] ∧
    reEncodeIP [172, 17, 0, 0] = "000011ac" ∧
    ("000011ac" : String) ≠ "000011AC" := by
  refine ⟨rfl, rfl, ?_⟩
  decide

/-- C3 witness: the round-trip theorem applied to the lowercase field
`0101a8c0`, where it is an exact identity. -/
theorem parseIP_reEncode_roundtrip_witness :
    reEncodeIP [192, 168, 1, 1] = lowerHexStr "0101a8c0" ∧
    lowerHexStr "0101a8c0" = "0101a8c0" :=
  ⟨parseIP_reEncode_roundtrip "0101a8c0" [192, 168, 1, 1] rfl, rfl⟩

/-- Errors out of `parseIP` are either the hex-decoding failure or the
`only IPv4 is supported` error. -/
theorem parseIP_error_cases {s : String} {e : RouteError}
    (h : parseIP s = .error e) : e = .hexError ∨ e = .onlyIPv4 := by
  unfold parseIP at h
  cases hd : hexDecode s with
  | none =>
    rw [hd] at h
    injection h with h
    exact Or.inl h.symm
  | some bs =>
    rw [hd] at h
    rcases bs with _ | ⟨b0, _ | ⟨b1, _ | ⟨b2, _ | ⟨b3, _ | ⟨b4, rest⟩⟩⟩⟩⟩ <;> simp at h <;>
      exact Or.inr h.symm

/-- On data lines (line numbers past the header) whose field counts are
fine and whose address fields all hex-decode, the first field decoding to
other than 4 bytes fails the whole scan with the `only IPv4` error. -/
theorem goRoutes_onlyIPv4 :
    ∀ (lines : List String) (n : Nat), 1 ≤ n →
      (∀ l ∈ lines, 3 ≤ (fields l).length) →
      (∀ l ∈ lines, parseIP ((fields l).get! 1) ≠ .error .hexError ∧
        parseIP ((fields l).get! 2) ≠ .error .hexError) →
      (∃ l ∈ lines, parseIP ((fields l).get! 1) = .error .onlyIPv4 ∨
        parseIP ((fields l).get! 2) = .error .onlyIPv4) →
      goRoutes lines n = .error .onlyIPv4 := by
  intro lines
  induction lines with
  | nil =>
    intro n hn h3 hhex hbad
    simp at hbad
  | cons l rest ih =>
    intro n hn h3 hhex hbad
    have hl3 : 3 ≤ (fields l).length := h3 l (by simp)
    simp only [goRoutes]
    rw [if_neg (by omega), if_neg (by omega)]
    cases hp1 : parseIP ((fields l).get! 1) with
    | error e =>
      have he : e = .onlyIPv4 := by
        rcases parseIP_error_cases hp1 with h | h
        · exact absurd (h ▸ hp1) (hhex l (by simp)).1
        · exact h
      simp [he]
    | ok dest =>
      cases hp2 : parseIP ((fields l).get! 2) with
      | error e =>
        have he : e = .onlyIPv4 := by
          rcases parseIP_error_cases hp2 with h | h
          · exact absurd (h ▸ hp2) (hhex l (by simp)).2
          · exact h
        simp [he]
      | ok gw =>
        have hrest : ∃ l ∈ rest, parseIP ((fields l).get! 1) = .error .onlyIPv4 ∨
            parseIP ((fields l).get! 2) = .error .onlyIPv4 := by
          rcases hbad with ⟨l', hl', hb⟩
          rcases List.mem_cons.mp hl' with rfl | hl'
          · rcases hb with hb | hb
            · rw [hp1] at hb; exact absurd hb (by simp)
            · rw [hp2] at hb; exact absurd hb (by simp)
          · exact ⟨l', hl', hb⟩
        rw [ih (n + 1) (by omega)
          (fun l' hl' => h3 l' (List.mem_cons_of_mem _ hl'))
          (fun l' hl' => hhex l' (List.mem_cons_of_mem _ hl')) hrest]
        rfl

/-- C2 (amended): for every routing-table input all of whose
newline-terminated lines have at least 3 fields and all of whose data
lines' destination/gateway fields hex-decode successfully, if some data
line's destination or gateway field decodes to other than exactly 4
bytes, the whole read fails with the `only IPv4 is supported` error and
no routes are returned.  (Without these side conditions the read can fail
earlier with a different error, or — when the offending line is the
unterminated final line — succeed; see the counterexample.) -/
theorem routes_fail_onlyIPv4 (content : String)
    (h3 : ∀ l ∈ completeLines content, 3 ≤ (fields l).length)
    (hhex : ∀ l ∈ (completeLines content).drop 1,
      parseIP ((fields l).get! 1) ≠ .error .hexError ∧
      parseIP ((fields l).get! 2) ≠ .error .hexError)
    (hbad : ∃ l ∈ (completeLines content).drop 1,
      parseIP ((fields l).get! 1) = .error .onlyIPv4 ∨
      parseIP ((fields l).get! 2) = .error .onlyIPv4) :
    GetRoutes content = .error .onlyIPv4 := by
  unfold GetRoutes
  cases hcl : completeLines content with
  | nil =>
    rw [hcl] at hbad
    simp at hbad
  | cons l0 rest =>
    rw [hcl] at h3 hhex hbad
    simp only [List.drop_succ_cons, List.drop_zero] at hhex hbad
    have hl3 : 3 ≤ (fields l0).length := h3 l0 (by simp)
    simp only [goRoutes]
    rw [if_neg (by omega)]
    simp only [if_true]
    exact goRoutes_onlyIPv4 rest 1 (by omega)
      (fun l hl => h3 l (List.mem_cons_of_mem _ hl)) hhex hbad

/-- C2 counterexample: an input whose (unterminated) final data line has a
destination field `0000` hex-decoding to 2 bytes — the read nevertheless
succeeds with an empty route list, because the line lacking its newline
terminator is never parsed; the same input with the terminator fails as
the claim describes. -/
theorem routes_fail_onlyIPv4_counterexample :
    GetRoutes "Iface Destination Gateway\neth0 0000 0000" = .ok [] ∧
    hexDecode "0000" = some [0, 0] ∧
    GetRoutes "Iface Destination Gateway\neth0 0000 0000\n" = .error .onlyIPv4 :=
  ⟨rfl, rfl, rfl⟩

/-- C2 witness: the amended theorem applied to a concrete two-line table
whose data line's destination field decodes to 2 bytes. -/
theorem routes_fail_onlyIPv4_witness :
    GetRoutes "Iface Destination Gateway Flags\neth0 0000 0101A8C0 0001\n" =
      .error .onlyIPv4 :=
  routes_fail_onlyIPv4 _ (by decide) (by decide) (by decide)

/-- Input with no newline yields no complete lines: the reader hits EOF
while reading the first line and drops it. -/
theorem completeLinesAux_no_newline {cs : List Char} (h : '\n' ∉ cs) (acc : List Char) :
    completeLinesAux cs acc = [] := by
  induction cs generalizing acc with
  | nil => rfl
  | cons c rest ih =>
    rw [completeLinesAux]
    have hc : ¬ (c = '\n') := fun hc => h (by simp [hc])
    rw [if_neg hc]
    exact ih (fun hm => h (List.mem_cons_of_mem _ hm)) _

/-- Appending newline-free text does not change the complete lines. -/
theorem completeLinesAux_append {t : List Char} (ht : '\n' ∉ t) :
    ∀ (s acc : List Char), completeLinesAux (s ++ t) acc = completeLinesAux s acc := by
  intro s
  induction s with
  | nil =>
    intro acc
    rw [List.nil_append, completeLinesAux_no_newline ht]
    rfl
  | cons c rest ih =>
    intro acc
    rw [List.cons_append, completeLinesAux, completeLinesAux]
    by_cases hc : c = '\n'
    · rw [if_pos hc, if_pos hc, ih]
    · rw [if_neg hc, if_neg hc, ih]

/-- A newline-free segment followed by one terminator is exactly one
complete line. -/
theorem completeLinesAux_terminated {cs : List Char} (h : '\n' ∉ cs) :
    ∀ acc, completeLinesAux (cs ++ ['\n']) acc = [String.mk (acc.reverse ++ cs)] := by
  induction cs with
  | nil =>
    intro acc
    rw [List.nil_append, completeLinesAux, if_pos rfl]
    simp [completeLinesAux]
  | cons c rest ih =>
    intro acc
    rw [List.cons_append, completeLinesAux]
    have hc : ¬ (c = '\n') := fun hc => h (by simp [hc])
    rw [if_neg hc, ih (fun hm => h (List.mem_cons_of_mem _ hm))]
    congr 1
    simp

/-- C9: a final line not terminated by a newline is silently ignored by
the route read — the read of any input extended by newline-free trailing
text is identical to the read without it, whether that trailing line is
well-formed or malformed. -/
theorem unterminated_final_line_ignored (s t : String) (ht : '\n' ∉ t.data) :
    GetRoutes (s ++ t) = GetRoutes s := by
  unfold GetRoutes completeLines
  rw [String.data_append, completeLinesAux_append ht]

/-- C9 witness: appending an unterminated (and even under-field) data line
to a header-only table changes nothing: the read still succeeds with no
routes. -/
theorem unterminated_final_line_ignored_witness :
    GetRoutes ("Iface Destination Gateway\n" ++ "eth0 zz") =
      GetRoutes "Iface Destination Gateway\n" ∧
    GetRoutes "Iface Destination Gateway\n" = .ok [] :=
  ⟨unterminated_final_line_ignored "Iface Destination Gateway\n" "eth0 zz" (by decide), rfl⟩

/-- C4 (amended): a routing-table input consisting of one header line with
at least 3 whitespace-separated fields and zero data lines yields an empty
route sequence, not an error.  (The header's content is not entirely
arbitrary: the field-count check runs before the header skip, so a header
with fewer than 3 fields is a fatal parse error — see the
counterexample.) -/
theorem header_only_table_ok (header : String) (hnl : '\n' ∉ header.data)
    (h3 : 3 ≤ (fields header).length) :
    GetRoutes (header ++ "\n") = .ok [] := by
  have hlines : completeLines (header ++ "\n") = [header] := by
    unfold completeLines
    rw [String.data_append]
    have hnlch : ("\n" : String).data = ['\n'] := rfl
    rw [hnlch, completeLinesAux_terminated hnl]
    rfl
  unfold GetRoutes
  rw [hlines]
  simp only [goRoutes]
  rw [if_neg (by omega)]
  simp only [if_true]

/-- C4 counterexample: a header line with a single field — the claim says
the first line is skipped regardless of its content, but the code checks
the field count before the header skip and fails the read. -/
theorem header_only_table_ok_counterexample :
    GetRoutes "Iface\n" = .error (.wrongFieldCount 1) := rfl

/-- C4 witness: the amended theorem applied to the usual header line. -/
theorem header_only_table_ok_witness :
    GetRoutes ("Iface Destination Gateway" ++ "\n") = .ok [] :=
  header_only_table_ok "Iface Destination Gateway" (by decide) (by decide)

/-- C5: a probe is constructed for a local address only when the address
parses as IPv4 and its interface has an entry in the default-gateway
index; and an address whose interface has no entry is skipped while the
remaining addresses are still processed. -/
theorem probe_construction_invariant :
    (∀ (dr : List (String × List Nat)) (i : iface) (p : Probe),
      probeFor dr i = some p →
        (∃ ip, parseCIDRv4 i.addr = some ip) ∧ (∃ gw, lookupGw dr i.name = some gw))
    ∧ (∀ (dr : List (String × List Nat)) (pre post : List iface) (bad : iface),
      lookupGw dr bad.name = none →
        dispatchProbes dr (pre ++ bad :: post) = dispatchProbes dr (pre ++ post)) := by
  constructor
  · intro dr i p h
    unfold probeFor at h
    cases hip : parseCIDRv4 i.addr with
    | none => rw [hip] at h; exact absurd h (by simp)
    | some ip =>
      rw [hip] at h
      cases hgw : lookupGw dr i.name with
      | none => rw [hgw] at h; exact absurd h (by simp)
      | some gw => exact ⟨⟨ip, rfl⟩, ⟨gw, rfl⟩⟩
  · intro dr pre post bad hbad
    have hnone : probeFor dr bad = none := by
      unfold probeFor
      cases hip : parseCIDRv4 bad.addr with
      | none => rfl
      | some ip => rw [hbad]
    simp [dispatchProbes, List.filterMap_append, List.filterMap_cons, hnone]

/-- C5 witness: the invariant applied to a concrete index and address
list — the eth0 address yields a probe (both conditions hold), and a
loopback address with no gateway entry is skipped while the following
address is still dispatched. -/
theorem probe_construction_invariant_witness :
    ((∃ ip, parseCIDRv4 (iface.addr ⟨"eth0", "aa:bb", "10.0.0.2/24"⟩) = some ip) ∧
      (∃ gw, lookupGw [("eth0", [10, 0, 0, 1])] (iface.name ⟨"eth0", "aa:bb", "10.0.0.2/24"⟩) =
        some gw)) ∧
    dispatchProbes [("eth0", [10, 0, 0, 1])]
        ([] ++ iface.mk "lo" "" "127.0.0.1/8" :: [⟨"eth0", "aa:bb", "10.0.0.2/24"⟩]) =
      dispatchProbes [("eth0", [10, 0, 0, 1])] ([] ++ [⟨"eth0", "aa:bb", "10.0.0.2/24"⟩]) := by
  constructor
  · exact probe_construction_invariant.1 [("eth0", [10, 0, 0, 1])]
      ⟨"eth0", "aa:bb", "10.0.0.2/24"⟩
      { tool := "arping", args := ["-U", "-c", "1", "-I", "eth0", "-s", "10.0.0.2", "10.0.0.1"] }
      rfl
  · exact probe_construction_invariant.2 [("eth0", [10, 0, 0, 1])]
      [] [⟨"eth0", "aa:bb", "10.0.0.2/24"⟩] (iface.mk "lo" "" "127.0.0.1/8") rfl

/-- C6: for every eligible local address (parsing as IPv4, with a known
gateway) the external tool is invoked with exactly the arguments
`-U -c 1 -I <interfaceName> -s <sourceIP> <gatewayIP>`; on address
10.0.0.2/24, interface eth0, gateway 10.0.0.1 the arguments are
`-U -c 1 -I eth0 -s 10.0.0.2 10.0.0.1`. -/
theorem probe_arguments_exact :
    (∀ (dr : List (String × List Nat)) (i : iface) (ip gw : List Nat),
      parseCIDRv4 i.addr = some ip → lookupGw dr i.name = some gw →
        probeFor dr i = some
          { tool := "arping"
            args := ["-U", "-c", "1", "-I", i.name, "-s", ipToString ip, ipToString gw] })
    ∧ probeFor [("eth0", [10, 0, 0, 1])] ⟨"eth0", "aa:bb:cc:dd:ee:ff", "10.0.0.2/24"⟩ =
        some { tool := "arping"
               args := ["-U", "-c", "1", "-I", "eth0", "-s", "10.0.0.2", "10.0.0.1"] } := by
  constructor
  · intro dr i ip gw hip hgw
    unfold probeFor
    rw [hip, hgw]
  · rfl

/-- C6 witness: the argument theorem applied to a concrete interface and
index. -/
theorem probe_arguments_exact_witness :
    probeFor [("wlan0", [192, 168, 0, 1])] ⟨"wlan0", "cc:dd", "192.168.0.7/16"⟩ =
      some { tool := "arping"
             args := ["-U", "-c", "1", "-I", "wlan0", "-s",
               ipToString [192, 168, 0, 7], ipToString [192, 168, 0, 1]] } :=
  probe_arguments_exact.1 [("wlan0", [192, 168, 0, 1])] ⟨"wlan0", "cc:dd", "192.168.0.7/16"⟩
    [192, 168, 0, 7] [192, 168, 0, 1] rfl rfl

/-- C7: when every interface's address listing succeeds, the enumerator
returns exactly one record per (interface with non-empty hardware
address, assigned address) pair, in enumeration order; and on the
example — eth0 with a hardware address and one address, lo with an empty
hardware address — the result is exactly eth0's single record. -/
theorem local_addresses_enumeration :
    (∀ ifs : List netInterface, (∀ i ∈ ifs, i.addrs.isSome) →
      localAddresses ifs =
        (ifs.filter (fun i => decide (i.hardwareAddr ≠ ""))).flatMap
          (fun i => (i.addrs.getD []).map
            (fun a => { name := i.name, mac := i.hardwareAddr, addr := a })))
    ∧ localAddresses [⟨"eth0", "aa:bb:cc:dd:ee:ff", some ["10.0.0.2/24"]⟩,
        ⟨"lo", "", some ["127.0.0.1/8"]⟩] =
        [⟨"eth0", "aa:bb:cc:dd:ee:ff", "10.0.0.2/24"⟩] := by
  constructor
  · intro ifs hall
    induction ifs with
    | nil => rfl
    | cons i rest ih =>
      have hrest := ih (fun j hj => hall j (List.mem_cons_of_mem _ hj))
      have hi : i.addrs.isSome := hall i (by simp)
      by_cases hhw : i.hardwareAddr = ""
      · simpa [localAddresses, List.filter_cons, hhw] using hrest
      · cases has : i.addrs with
        | none => rw [has] at hi; exact absurd hi (by simp)
        | some as =>
          simp only [localAddresses, List.flatMap_cons, List.filter_cons] at hrest ⊢
          rw [if_neg hhw, has]
          have hd : decide (i.hardwareAddr ≠ "") = true := by simp [hhw]
          rw [hd]
          simp only [if_true]
          rw [List.flatMap_cons, has, hrest]
          rfl
  · rfl

/-- C7 witness: the enumeration theorem applied to a concrete interface
list with a multi-address interface. -/
theorem local_addresses_enumeration_witness :
    localAddresses [⟨"wlan0", "11:22", some ["192.168.0.5/24", "fe80::1/64"]⟩] =
      (([⟨"wlan0", "11:22", some ["192.168.0.5/24", "fe80::1/64"]⟩] :
          List netInterface).filter
        (fun i => decide (i.hardwareAddr ≠ ""))).flatMap
        (fun i => (i.addrs.getD []).map
          (fun a => { name := i.name, mac := i.hardwareAddr, addr := a })) :=
  local_addresses_enumeration.1 [⟨"wlan0", "11:22", some ["192.168.0.5/24", "fe80::1/64"]⟩]
    (by decide)

/-- C8 (amended): what the program echoes for a tool invocation is the
tool's captured standard output (with the newline `Println` appends), not
the combination of standard output and standard error; on a non-zero exit
nothing is echoed (the run aborts). -/
theorem echoed_output_is_stdout (r : ExecResult) :
    echoedOutput r = if r.exitOk then some (r.stdout ++ "\n") else none := by
  cases hr : r.exitOk <;> simp [echoedOutput, cmdOutput, hr]

/-- C8 counterexample: a successful invocation that wrote to standard
error — the echoed text is the standard output alone and differs from the
combined output the claim describes. -/
theorem echoed_output_is_stdout_counterexample :
    echoedOutput { stdout := "ARPING 10.0.0.1", stderr := "arping: warning", exitOk := true } =
      some ("ARPING 10.0.0.1" ++ "\n") ∧
    echoedOutput { stdout := "ARPING 10.0.0.1", stderr := "arping: warning", exitOk := true } ≠
      some ("ARPING 10.0.0.1" ++ "arping: warning" ++ "\n") := by
  refine ⟨rfl, ?_⟩
  decide

/-- Bytes produced by a hex decode are below 256. -/
theorem hexDecodeList_bytes_lt :
    ∀ {cs : List Char} {bs : List Nat},
      hexDecodeList cs = some bs → ∀ b ∈ bs, b < 256
  | [], bs, h => by
    rw [hexDecodeList] at h
    injection h with h
    subst h
    simp
  | [c], bs, h => by
    rw [hexDecodeList] at h
    exact absurd h (by simp)
  | c1 :: c2 :: rest, bs, h => by
    rw [hexDecodeList] at h
    cases h1 : hexDigitVal c1 with
    | none => rw [h1] at h; exact absurd h (by simp)
    | some hv =>
      cases h2 : hexDigitVal c2 with
      | none => rw [h1, h2] at h; exact absurd h (by simp)
      | some lv =>
        cases h3 : hexDecodeList rest with
        | none => rw [h1, h2, h3] at h; exact absurd h (by simp)
        | some bs2 =>
          rw [h1, h2, h3] at h
          injection h with h
          subst h
          intro b hb
          rcases List.mem_cons.mp hb with rfl | hb
          · have hvlt := (hexDigitVal_spec h1).1
            have lvlt := (hexDigitVal_spec h2).1
            omega
          · exact hexDecodeList_bytes_lt h3 b hb

/-- A successful `parseIP` yields exactly 4 bytes, each below 256. -/
theorem parseIP_ok_shape {s : String} {ip : List Nat} (h : parseIP s = .ok ip) :
    ∃ a b c d, ip = [a, b, c, d] ∧ a < 256 ∧ b < 256 ∧ c < 256 ∧ d < 256 := by
  unfold parseIP at h
  cases hd : hexDecode s with
  | none => rw [hd] at h; exact absurd h (by simp)
  | some bs =>
    rw [hd] at h
    rcases bs with _ | ⟨b0, _ | ⟨b1, _ | ⟨b2, _ | ⟨b3, _ | ⟨b4, rest⟩⟩⟩⟩⟩ <;> simp at h
    subst h
    unfold hexDecode at hd
    have hlt := hexDecodeList_bytes_lt hd
    exact ⟨b3, b2, b1, b0, rfl, hlt b3 (by simp), hlt b2 (by simp),
      hlt b1 (by simp), hlt b0 (by simp)⟩

/-- Every gateway in a successfully parsed route list came out of
`parseIP`. -/
theorem goRoutes_ok_gateways :
    ∀ (lines : List String) (n : Nat) (routes : List Route),
      goRoutes lines n = .ok routes →
      ∀ r ∈ routes, ∃ s, parseIP s = .ok r.Gateway := by
  intro lines
  induction lines with
  | nil =>
    intro n routes h r hr
    rw [goRoutes] at h
    injection h with h
    subst h
    simp at hr
  | cons l rest ih =>
    intro n routes h r hr
    simp only [goRoutes] at h
    by_cases h3 : (fields l).length < 3
    · rw [if_pos h3] at h; exact absurd h (by simp)
    · rw [if_neg h3] at h
      by_cases hn : n + 1 = 1
      · rw [if_pos hn] at h
        exact ih _ _ h r hr
      · rw [if_neg hn] at h
        cases hp1 : parseIP ((fields l).get! 1) with
        | error e => rw [hp1] at h; exact absurd h (by simp)
        | ok dest =>
          rw [hp1] at h
          cases hp2 : parseIP ((fields l).get! 2) with
          | error e => rw [hp2] at h; exact absurd h (by simp)
          | ok gw =>
            rw [hp2] at h
            cases hrec : goRoutes rest (n + 1) with
            | error e => rw [hrec] at h; exact absurd h (by simp [Except.map])
            | ok rs =>
              rw [hrec] at h
              simp only [Except.map] at h
              injection h with h
              subst h
              rcases List.mem_cons.mp hr with rfl | hr
              · exact ⟨(fields l).get! 2, hp2⟩
              · exact ih _ _ hrec r hr

/-- C10: every gateway stored in the default-gateway index derived from a
successfully read routing table is a well-formed 4-byte IPv4 address, and
it renders as the dotted-quad decimal string the dispatcher passes to the
external tool. -/
theorem gateway_values_wellformed (content : String) (routes : List Route)
    (name : String) (gw : List Nat)
    (hroutes : GetRoutes content = .ok routes)
    (hgw : lookupGw (getDefaultRoutes routes) name = some gw) :
    ∃ a b c d, gw = [a, b, c, d] ∧ a < 256 ∧ b < 256 ∧ c < 256 ∧ d < 256 ∧
      ipToString gw =
        toString a ++ "." ++ toString b ++ "." ++ toString c ++ "." ++ toString d := by
  rw [lookupGw_getDefaultRoutes] at hgw
  cases hlast : (routes.filter (fun r =>
      decide (r.Destination = [0, 0, 0, 0] ∧ r.Interface = name))).getLast? with
  | none => rw [hlast] at hgw; exact absurd hgw (by simp)
  | some r0 =>
    rw [hlast] at hgw
    simp only [Option.map] at hgw
    injection hgw with hgw
    have hmem : r0 ∈ routes := List.mem_of_mem_filter (mem_of_getLast?_eq hlast)
    have hsrc := goRoutes_ok_gateways (completeLines content) 0 routes hroutes r0 hmem
    rcases hsrc with ⟨s, hs⟩
    rcases parseIP_ok_shape hs with ⟨a, b, c, d, hshape, ha, hb, hc, hd⟩
    refine ⟨a, b, c, d, ?_, ha, hb, hc, hd, ?_⟩
    · rw [← hgw, hshape]
    · rw [← hgw, hshape]
      rfl

/-- C10 witness: the invariant applied to a concrete one-route table whose
default gateway is 192.168.1.1. -/
theorem gateway_values_wellformed_witness :
    ∃ a b c d, ([192, 168, 1, 1] : List Nat) = [a, b, c, d] ∧
      a < 256 ∧ b < 256 ∧ c < 256 ∧ d < 256 ∧
      ipToString [192, 168, 1, 1] =
        toString a ++ "." ++ toString b ++ "." ++ toString c ++ "." ++ toString d :=
  gateway_values_wellformed "Iface Destination Gateway\neth0 00000000 0101A8C0\n"
    [{ Interface := "eth0", Destination := [0, 0, 0, 0], Gateway := [192, 168, 1, 1] }]
    "eth0" [192, 168, 1, 1] rfl rfl

end Arpingall
